import Mathlib

/-!
Verification development for the `nk-passkey-test` repository.

The repository drives a WebAuthn passkey registration/login flow with a
simulated authenticator.  Its invariant-bearing logic is the credential
store (`common.py`: timestamped JSON snapshots in a directory, latest-wins
selection), the domain extractor (`common.py:extract_domain`), and the
flow-level persistence discipline of `register.py` / `login.py` and the
integration test.

The embedding below models:
  * JSON values, credential records and the (external, pass-through)
    dict serialization used by the store;
  * the filesystem as an optional association list of file name to
    JSON content (`none` = directory absent);
  * Python string primitives used by the code (`str.split`, `str.strip`,
    `str.isdigit`, `int`, lexicographic string comparison, `strftime`
    timestamp formatting) as executable functions on `List Char`;
  * the store operations, the domain extractor, the selection prompt and
    the register/login flows, with all external events (browser, operator
    input, authenticator output) passed in explicitly.
-/

/-- JSON values, the serialized form of credential snapshots. -/
inductive Json where
  | null
  | bool (b : Bool)
  | num (n : Int)
  | str (s : String)
  | arr (xs : List Json)
  | obj (fields : List (String × Json))

/-- One WebAuthn credential record, as held by the virtual authenticator.
Opaque byte fields (credential id, private key, user handle) are kept in
their base64-encoded string form, which is what the dict serialization
carries. -/
structure Credential where
  credentialId : String
  isResidentCredential : Bool
  rpId : String
  privateKey : String
  signCount : Nat
  userHandle : String
  deriving DecidableEq

/-- Modelled from the spec: the dict shape of one credential record is
emitted by the external authenticator library (`Credential.to_dict`) and is
treated by the store as an opaque pass-through carrying at least the
relying-party id, credential id, key material, user handle and signature
counter. -/
def credToDict (c : Credential) : Json :=
  Json.obj [("credentialId", Json.str c.credentialId),
            ("isResidentCredential", Json.bool c.isResidentCredential),
            ("rpId", Json.str c.rpId),
            ("privateKey", Json.str c.privateKey),
            ("signCount", Json.num (Int.ofNat c.signCount)),
            ("userHandle", Json.str c.userHandle)]

/-- Key lookup in a JSON object field list (first match wins). -/
def jsonField (fields : List (String × Json)) (key : String) : Option Json :=
  match fields with
  | [] => none
  | (k, v) :: rest => if k = key then some v else jsonField rest key

/-- Modelled from the spec: the external library's `Credential.from_dict`,
reading back the dict shape produced by `credToDict`; any missing key or
wrong field shape raises, modelled as `none`. -/
def credFromDict (j : Json) : Option Credential :=
  match j with
  | Json.obj fields =>
    match jsonField fields "credentialId", jsonField fields "isResidentCredential",
          jsonField fields "rpId", jsonField fields "privateKey",
          jsonField fields "signCount", jsonField fields "userHandle" with
    | some (Json.str cid), some (Json.bool res), some (Json.str rp),
      some (Json.str pk), some (Json.num (Int.ofNat sc)), some (Json.str uh) =>
        some ⟨cid, res, rp, pk, sc, uh⟩
    | _, _, _, _, _, _ => none
  | _ => none

/-- Serialization of a record list: `[c.to_dict() for c in credentials]`
dumped as a JSON array. -/
def serializeCreds (creds : List Credential) : Json :=
  Json.arr (creds.map credToDict)

/-- Deserialization of a record list:
`[Credential.from_dict(d) for d in data]`; any element failure raises. -/
def decodeAll : List Json → Option (List Credential)
  | [] => some []
  | j :: rest =>
    match credFromDict j, decodeAll rest with
    | some c, some cs => some (c :: cs)
    | _, _ => none

/-! ## Python string primitives on `List Char` -/

/-- Python code-point lexicographic string comparison (`s < t`), as used by
`sorted` on paths sharing a directory. -/
def charListLt : List Char → List Char → Bool
  | _, [] => false
  | [], _ :: _ => true
  | a :: as, b :: bs =>
    if a < b then true
    else if b < a then false
    else charListLt as bs

/-- Descending comparator on file names: `a` may precede `b` in
`sorted(files, reverse=True)` iff `a` is not strictly below `b`. -/
def pathGe (a b : String) : Bool := !charListLt a.data b.data

/-- Insertion step of the descending sort. -/
def insertDesc (x : String) : List String → List String
  | [] => [x]
  | y :: ys => if pathGe x y then x :: y :: ys else y :: insertDesc x ys

/-- Python `sorted(files, reverse=True)`: file names in descending
code-point lexicographic order. -/
def sortDesc : List String → List String
  | [] => []
  | x :: xs => insertDesc x (sortDesc xs)

/-- Python `hostname.split(sep)` for a one-character separator. -/
def splitOnChar (sep : Char) : List Char → List (List Char)
  | [] => [[]]
  | c :: rest =>
    let r := splitOnChar sep rest
    if c = sep then [] :: r
    else
      match r with
      | [] => [[c]]
      | g :: gs => (c :: g) :: gs

/-- Python `".".join(groups)`. -/
def joinDot : List (List Char) → List Char
  | [] => []
  | [g] => g
  | g :: gs => g ++ '.' :: joinDot gs

/-- Python `str.strip()`: drop leading and trailing whitespace. -/
def stripChars (l : List Char) : List Char :=
  ((l.dropWhile Char.isWhitespace).reverse.dropWhile Char.isWhitespace).reverse

/-- Python `str.isdigit()`: non-empty and all digits. -/
def isDigitStr (l : List Char) : Bool := !l.isEmpty && l.all Char.isDigit

/-- Python `int(s)` on an all-digit string. -/
def digitsToNat (l : List Char) : Nat :=
  l.foldl (fun acc c => 10 * acc + (c.toNat - 48)) 0

/-! ## Timestamp formatting (`strftime("%Y-%m-%d_%H-%M-%S")`) -/

/-- One decimal digit character. -/
def digitChar (n : Nat) : Char := Char.ofNat (48 + n)

/-- Zero-padded fixed-width decimal rendering, most significant digit
first: `padDigits w n` renders `n < 10 ^ w` in exactly `w` digits. -/
def padDigits : Nat → Nat → List Char
  | 0, _ => []
  | w + 1, n => digitChar (n / 10 ^ w) :: padDigits w (n % 10 ^ w)

/-- A wall-clock timestamp at one-second resolution. -/
structure Timestamp where
  year : Nat
  month : Nat
  day : Nat
  hour : Nat
  minute : Nat
  second : Nat
  deriving DecidableEq

/-- Character list of `now.strftime("%Y-%m-%d_%H-%M-%S")`. -/
def tsChars (t : Timestamp) : List Char :=
  padDigits 4 t.year ++ ['-'] ++ (padDigits 2 t.month ++ ['-'] ++ (padDigits 2 t.day ++ ['_'] ++
    (padDigits 2 t.hour ++ ['-'] ++ (padDigits 2 t.minute ++ ['-'] ++ padDigits 2 t.second))))

/-- The formatted timestamp as a string. -/
def formatTimestamp (t : Timestamp) : String := String.mk (tsChars t)

/-- The generated snapshot file name `strftime(...) + ".json"`. -/
def filenameOf (t : Timestamp) : String := String.mk (tsChars t ++ (".json").data)

/-- Field ranges under which the `strftime` rendering is faithful; every
real `datetime` satisfies them. -/
def Timestamp.valid (t : Timestamp) : Prop :=
  t.year < 10000 ∧ t.month < 100 ∧ t.day < 100 ∧ t.hour < 100 ∧ t.minute < 100 ∧ t.second < 100

instance (t : Timestamp) : Decidable t.valid := by
  unfold Timestamp.valid
  infer_instance

/-- Wall-clock order on timestamps (lexicographic on the fields). -/
def Timestamp.before (a b : Timestamp) : Prop :=
  a.year < b.year ∨ (a.year = b.year ∧
    (a.month < b.month ∨ (a.month = b.month ∧
      (a.day < b.day ∨ (a.day = b.day ∧
        (a.hour < b.hour ∨ (a.hour = b.hour ∧
          (a.minute < b.minute ∨ (a.minute = b.minute ∧ a.second < b.second)))))))))

instance (a b : Timestamp) : Decidable (a.before b) := by
  unfold Timestamp.before
  infer_instance

/-! ## The credential store -/

/-- A directory: file name to JSON content, no semantic order. -/
abbrev Dir := List (String × Json)

/-- The store state: `none` models an absent directory. -/
abbrev FS := Option Dir

/-- Write (create or overwrite) one file. -/
def writeFile (d : Dir) (name : String) (content : Json) : Dir :=
  (name, content) :: d.filter (fun p => p.1 != name)

/-- Read one file, `none` when missing. -/
def readFile (fs : FS) (name : String) : Option Json :=
  ((fs.getD []).find? (fun p => p.1 == name)).map Prod.snd

/-- Whether a file name matches the glob `*.json`. -/
def isJsonName (s : String) : Bool :=
  decide (5 ≤ s.data.length) && decide (s.data.drop (s.data.length - 5) = (".json").data)

/-- `list_credential_files`: all `*.json` names in the directory, newest
first (descending name order); empty when the directory is absent. -/
def list_credential_files (fs : FS) : List String :=
  match fs with
  | none => []
  | some d => sortDesc ((d.map Prod.fst).filter isJsonName)

/-- `save_credentials`: ensure the directory exists, generate the
timestamped name, serialize and write; returns the new state and the
written name. -/
def save_credentials (creds : List Credential) (fs : FS) (now : Timestamp) : FS × String :=
  let name := filenameOf now
  (some (writeFile (fs.getD []) name (serializeCreds creds)), name)

/-- Modelled from the spec: `save_credentials_to` is imported by the login
flow and the integration test but its definition is absent from the
provided sources; per the spec it performs the same serialization as the
timestamped save, but to a caller-supplied path. -/
def save_credentials_to (creds : List Credential) (path : String) (fs : FS) : FS :=
  some (writeFile (fs.getD []) path (serializeCreds creds))

deriving instance DecidableEq for Except

/-- Store failure kinds surfaced by loads. -/
inductive StoreError where
  | notFound
  | parseError
  deriving DecidableEq

/-- `load_credentials_from`: read and deserialize one snapshot file. -/
def load_credentials_from (fs : FS) (name : String) : Except StoreError (List Credential) :=
  match readFile fs name with
  | none => Except.error StoreError.notFound
  | some (Json.arr xs) =>
    match decodeAll xs with
    | some cs => Except.ok cs
    | none => Except.error StoreError.parseError
  | some _ => Except.error StoreError.parseError

/-- `load_credentials`: load from the newest snapshot file;
`FileNotFoundError` when none exists. -/
def load_credentials (fs : FS) : Except StoreError (List Credential) :=
  match list_credential_files fs with
  | [] => Except.error StoreError.notFound
  | f :: _ => load_credentials_from fs f

/-- `credential_exists`: whether the listing is non-empty. -/
def credential_exists (fs : FS) : Bool :=
  decide (0 < (list_credential_files fs).length)

/-! ## Domain extraction -/

/-- Domain extraction failure: the URL has no hostname. -/
inductive DomainError where
  | invalidInput
  deriving DecidableEq

/-- The fixed multi-part-TLD markers `("co", "or", "ne", "ac", "go")`. -/
def dotMarkers : List (List Char) :=
  [['c', 'o'], ['o', 'r'], ['n', 'e'], ['a', 'c'], ['g', 'o']]

/-- `extract_domain`: the registered domain of a URL.  Hostname parsing is
delegated to the standard library (`urlparse(url).hostname`), modelled here
as the `Option String` input; `none` raises `ValueError`. -/
def extract_domain (hostname : Option String) : Except DomainError String :=
  match hostname with
  | none => Except.error DomainError.invalidInput
  | some h =>
    let parts := splitOnChar '.' h.data
    if 3 ≤ parts.length ∧ parts.getD (parts.length - 2) [] ∈ dotMarkers then
      Except.ok (String.mk (joinDot (parts.drop (parts.length - 3))))
    else
      Except.ok (String.mk (joinDot (parts.drop (parts.length - 2))))

/-! ## Selection prompt and flows

Browser, operator and authenticator behaviour is external; each flow takes
an environment recording the outcome of every external step, and threads
the store state explicitly.  An exception at any step is caught by the
flow's single catch-all boundary, which only reports: it never writes. -/

/-- One iteration's test of the selection prompt:
`choice.strip()` followed by `choice.isdigit() and 1 <= int(choice) <= N`;
returns the accepted 1-based index. -/
def parse_choice (n : Nat) (raw : String) : Option Nat :=
  let c := stripChars raw.data
  if isDigitStr c ∧ 1 ≤ digitsToNat c ∧ digitsToNat c ≤ n then
    some (digitsToNat c)
  else
    none

/-- The re-prompting selection loop, driven by the (finite, modelled)
sequence of operator inputs: the first accepted input selects
`files[int(choice) - 1]`; `none` when every supplied input is rejected
(the real loop would still be prompting). -/
def select_loop (inputs : List String) (files : List String) : Option String :=
  match inputs with
  | [] => none
  | raw :: rest =>
    match parse_choice files.length raw with
    | some i => files.get? (i - 1)
    | none => select_loop rest files

/-- Outcome of one login-flow run. -/
inductive LoginResult where
  | noCredentials
  | awaitingInput
  | configMissing
  | aborted
  | success
  deriving DecidableEq

/-- External events consumed by the login flow, in program order. -/
structure LoginEnv where
  inputs : List String
  urlOk : Bool
  buttonFound : Bool
  loginDetected : Bool
  updated : List Credential

/-- Tail of the login flow (`login.py:main` steps 2 to 8) once a snapshot
file was selected: load and inject its records, drive the login click,
detect success, and overwrite the selected snapshot in place when the
authenticator returned a non-empty updated record list. -/
def login_after_select (env : LoginEnv) (fs : FS) (selected : String) : FS × LoginResult :=
  if env.urlOk then
    match load_credentials_from fs selected with
    | Except.error _ => (fs, LoginResult.aborted)
    | Except.ok _creds =>
      if env.buttonFound then
        if env.loginDetected then
          if env.updated.isEmpty then (fs, LoginResult.success)
          else (save_credentials_to env.updated selected fs, LoginResult.success)
        else (fs, LoginResult.aborted)
      else (fs, LoginResult.aborted)
  else (fs, LoginResult.configMissing)

/-- Snapshot enumeration and selection of the login flow, handing over to
`login_after_select` once a snapshot is chosen. -/
def login_main (env : LoginEnv) (fs : FS) : FS × LoginResult :=
  match list_credential_files fs with
  | [] => (fs, LoginResult.noCredentials)
  | f0 :: rest =>
    match if rest.isEmpty then some f0 else select_loop env.inputs (f0 :: rest) with
    | none => (fs, LoginResult.awaitingInput)
    | some selected => login_after_select env fs selected

/-- Outcome of one register-flow run. -/
inductive RegisterResult where
  | configMissing
  | aborted
  | operationFailed
  | success
  deriving DecidableEq

/-- External events consumed by the register flow, in program order. -/
structure RegisterEnv where
  urlOk : Bool
  loginDetected : Bool
  navOk : Bool
  otpSendOk : Bool
  otpDone : Bool
  ceremonyDone : Bool
  creds : List Credential

/-- The register flow (`register.py:main`): drive the UI steps, then
retrieve the authenticator's records; raise `RuntimeError` when none were
produced, otherwise persist them with the timestamped save. -/
def register_main (env : RegisterEnv) (fs : FS) (now : Timestamp) : FS × RegisterResult :=
  if env.urlOk then
    if env.loginDetected then
      if env.navOk then
        if env.otpSendOk then
          if env.otpDone then
            if env.ceremonyDone then
              if env.creds.isEmpty then (fs, RegisterResult.operationFailed)
              else ((save_credentials env.creds fs now).1, RegisterResult.success)
            else (fs, RegisterResult.aborted)
          else (fs, RegisterResult.aborted)
        else (fs, RegisterResult.aborted)
      else (fs, RegisterResult.aborted)
    else (fs, RegisterResult.aborted)
  else (fs, RegisterResult.configMissing)

/-- The integration test's login helper tail (`_do_passkey_login`): after a
detected login, fetch the authenticator's records, overwrite the snapshot
in place when non-empty, and re-read the snapshot file. -/
def do_passkey_login (fs : FS) (file : String) (updated : List Credential) :
    FS × Except StoreError (List Credential) :=
  let fs2 := if updated.isEmpty then fs else save_credentials_to updated file fs
  (fs2, load_credentials_from fs2 file)

/-- The test's `data[0]["signCount"]` read. -/
def firstSignCount (creds : List Credential) : Nat :=
  match creds with
  | [] => 0
  | c :: _ => c.signCount

/-! ## Spec-side vocabulary and concrete sample data -/

/-- Spec-side description of the extractor result: the last `n`
dot-separated labels of the hostname. -/
def lastLabels (n : Nat) (l : List (List Char)) : List (List Char) :=
  (l.reverse.take n).reverse

/-- A sample credential record with a given signature counter. -/
def sampleCred (n : Nat) : Credential :=
  ⟨"Y3JlZC1pZA", true, "example.co.jp", "cHJpdmF0ZQ", n, "dXNlcg"⟩

/-- A sample wall-clock instant. -/
def ts0 : Timestamp := ⟨2025, 10, 12, 9, 30, 0⟩

/-- One second after `ts0`. -/
def ts1 : Timestamp := ⟨2025, 10, 12, 9, 30, 1⟩

/-! ## Serialization round-trip -/

/-- Decoding inverts encoding on one record. -/
theorem credFromDict_credToDict (c : Credential) : credFromDict (credToDict c) = some c := by
  cases c
  simp [credToDict, credFromDict, jsonField]

/-- Decoding inverts encoding on a record list. -/
theorem decodeAll_map_credToDict (l : List Credential) :
    decodeAll (l.map credToDict) = some l := by
  induction l with
  | nil => rfl
  | cons c rest ih => simp [decodeAll, credFromDict_credToDict, ih]

/-- Reading the file just written returns its content. -/
theorem readFile_writeFile_self (d : Dir) (name : String) (content : Json) :
    readFile (some (writeFile d name content)) name = some content := by
  simp [readFile, writeFile]

/-- Reading any other file is unaffected by a write. -/
theorem readFile_writeFile_other (d : Dir) (name other : String) (content : Json)
    (h : other ≠ name) : readFile (some (writeFile d name content)) other = readFile (some d) other := by
  have h2 : ¬(name = other) := fun e => h e.symm
  simp only [readFile, writeFile, Option.getD_some]
  rw [List.find?_cons_of_neg]
  · induction d with
    | nil => rfl
    | cons p rest ih =>
      by_cases hp : p.1 = name
      · rw [List.filter_cons_of_neg, List.find?_cons_of_neg]
        · exact ih
        · simp [hp, h2]
        · simp [hp]
      · rw [List.filter_cons_of_pos]
        · by_cases hm : p.1 = other
          · rw [List.find?_cons_of_pos, List.find?_cons_of_pos] <;> simp [hm]
          · rw [List.find?_cons_of_neg, List.find?_cons_of_neg] <;> simp_all
        · simp [hp]
  · simp [h2]

/-- Loading from a path right after saving to it returns exactly the
records written, whatever else the store holds. -/
theorem load_after_save_to (creds : List Credential) (path : String) (fs : FS) :
    load_credentials_from (save_credentials_to creds path fs) path = Except.ok creds := by
  simp [load_credentials_from, save_credentials_to, serializeCreds,
    readFile_writeFile_self, decodeAll_map_credToDict]

/-! ## Order properties of the path comparison -/

/-- The comparison is irreflexive. -/
theorem charListLt_irrefl (l : List Char) : charListLt l l = false := by
  induction l with
  | nil => rfl
  | cons c rest ih =>
    rw [charListLt, if_neg (lt_irrefl c), if_neg (lt_irrefl c)]
    exact ih

/-- Cons characterization of the comparison. -/
theorem charListLt_cons_iff {x y : Char} {xs ys : List Char} :
    charListLt (x :: xs) (y :: ys) = true ↔ (x < y ∨ (x = y ∧ charListLt xs ys = true)) := by
  by_cases h1 : x < y
  · simp [charListLt, h1]
  · by_cases h2 : y < x
    · simp [charListLt, h1, h2, ne_of_gt h2]
    · have heq : x = y := le_antisymm (not_lt.mp h2) (not_lt.mp h1)
      simp [charListLt, h1, h2, heq]

/-- The comparison is transitive. -/
theorem charListLt_trans (a : List Char) :
    ∀ b c, charListLt a b = true → charListLt b c = true → charListLt a c = true := by
  induction a with
  | nil =>
    intro b c hab hbc
    cases b with
    | nil => simp [charListLt] at hab
    | cons y ys =>
      cases c with
      | nil => simp [charListLt] at hbc
      | cons z zs => simp [charListLt]
  | cons x xs ih =>
    intro b c hab hbc
    cases b with
    | nil => simp [charListLt] at hab
    | cons y ys =>
      cases c with
      | nil => simp [charListLt] at hbc
      | cons z zs =>
        rw [charListLt_cons_iff] at hab hbc ⊢
        rcases hab with h1 | ⟨e1, h1⟩
        · rcases hbc with h2 | ⟨e2, h2⟩
          · exact Or.inl (lt_trans h1 h2)
          · exact Or.inl (e2 ▸ h1)
        · rcases hbc with h2 | ⟨e2, h2⟩
          · exact Or.inl (e1 ▸ h2)
          · exact Or.inr ⟨e1.trans e2, ih ys zs h1 h2⟩

/-- Two lists unrelated by the comparison are equal. -/
theorem charListLt_connex (a : List Char) :
    ∀ b, charListLt a b = false → charListLt b a = false → a = b := by
  induction a with
  | nil =>
    intro b h1 _
    cases b with
    | nil => rfl
    | cons y ys => simp [charListLt] at h1
  | cons x xs ih =>
    intro b h1 h2
    cases b with
    | nil => simp [charListLt] at h2
    | cons y ys =>
      have h1' : ¬(x < y ∨ (x = y ∧ charListLt xs ys = true)) := by
        rw [← charListLt_cons_iff]; simp [h1]
      have h2' : ¬(y < x ∨ (y = x ∧ charListLt ys xs = true)) := by
        rw [← charListLt_cons_iff]; simp [h2]
      push_neg at h1' h2'
      have heq : x = y := le_antisymm h2'.1 h1'.1
      have hxs : charListLt xs ys = false := by
        have := h1'.2 heq
        revert this
        cases charListLt xs ys <;> simp
      have hys : charListLt ys xs = false := by
        have := h2'.2 heq.symm
        revert this
        cases charListLt ys xs <;> simp
      rw [heq, ih ys hxs hys]

/-- The comparison is asymmetric. -/
theorem charListLt_asymm {a b : List Char} (h : charListLt a b = true) :
    charListLt b a = false := by
  cases hba : charListLt b a with
  | false => rfl
  | true =>
    have habs := charListLt_trans a b a h hba
    rw [charListLt_irrefl] at habs
    exact Bool.noConfusion habs

/-- Strictly related lists are distinct. -/
theorem ne_of_charListLt {a b : List Char} (h : charListLt a b = true) : a ≠ b := by
  intro e
  subst e
  rw [charListLt_irrefl] at h
  exact Bool.noConfusion h

/-- The descending comparator is reflexive. -/
theorem pathGe_refl (a : String) : pathGe a a = true := by
  simp [pathGe, charListLt_irrefl]

/-- The descending comparator is total. -/
theorem pathGe_total (a b : String) : pathGe a b = true ∨ pathGe b a = true := by
  cases h : charListLt a.data b.data with
  | false => exact Or.inl (by simp [pathGe, h])
  | true => exact Or.inr (by simp [pathGe, charListLt_asymm h])

/-- The descending comparator is transitive. -/
theorem pathGe_trans {a b c : String} (h1 : pathGe a b = true) (h2 : pathGe b c = true) :
    pathGe a c = true := by
  simp only [pathGe, Bool.not_eq_true'] at h1 h2 ⊢
  cases hac : charListLt a.data c.data with
  | false => rfl
  | true =>
    cases hba : charListLt b.data a.data with
    | false =>
      have heq : b.data = a.data := charListLt_connex _ _ hba h1
      rw [← heq] at hac
      rw [hac] at h2
      exact h2
    | true =>
      have := charListLt_trans b.data a.data c.data hba hac
      rw [this] at h2
      exact h2

/-- The descending comparator is antisymmetric. -/
theorem pathGe_antisymm {a b : String} (h1 : pathGe a b = true) (h2 : pathGe b a = true) :
    a = b := by
  simp only [pathGe, Bool.not_eq_true'] at h1 h2
  exact String.ext (charListLt_connex a.data b.data h1 h2)

/-! ## Sorting lemmas -/

/-- Membership through the insertion step. -/
theorem mem_insertDesc {x a : String} {l : List String} :
    a ∈ insertDesc x l ↔ a = x ∨ a ∈ l := by
  induction l with
  | nil => simp [insertDesc]
  | cons y ys ih =>
    by_cases h : pathGe x y = true
    · simp [insertDesc, h]
    · simp only [insertDesc, if_neg h, List.mem_cons, ih]
      tauto

/-- Membership through the sort. -/
theorem mem_sortDesc {a : String} {l : List String} : a ∈ sortDesc l ↔ a ∈ l := by
  induction l with
  | nil => simp [sortDesc]
  | cons y ys ih => simp [sortDesc, mem_insertDesc, ih]

/-- The insertion step preserves descending sortedness. -/
theorem pairwise_insertDesc {x : String} {l : List String}
    (hl : List.Pairwise (fun a b => pathGe a b = true) l) :
    List.Pairwise (fun a b => pathGe a b = true) (insertDesc x l) := by
  induction l with
  | nil => simp [insertDesc]
  | cons y ys ih =>
    rcases List.pairwise_cons.mp hl with ⟨hy, hys⟩
    by_cases h : pathGe x y = true
    · rw [insertDesc, if_pos h]
      refine List.pairwise_cons.mpr ⟨?_, hl⟩
      intro z hz
      rcases List.mem_cons.mp hz with he | hm
      · rw [he]; exact h
      · exact pathGe_trans h (hy z hm)
    · rw [insertDesc, if_neg h]
      have hyx : pathGe y x = true := by
        rcases pathGe_total x y with ht | ht
        · exact absurd ht h
        · exact ht
      refine List.pairwise_cons.mpr ⟨?_, ih hys⟩
      intro z hz
      rcases mem_insertDesc.mp hz with he | hm
      · rw [he]; exact hyx
      · exact hy z hm

/-- The sort output is descending. -/
theorem pairwise_sortDesc (l : List String) :
    List.Pairwise (fun a b => pathGe a b = true) (sortDesc l) := by
  induction l with
  | nil => simp [sortDesc]
  | cons y ys ih => exact pairwise_insertDesc ih

/-- A maximal element of the input heads the sorted output. -/
theorem sortDesc_head {l : List String} {n : String} (hmem : n ∈ l)
    (hmax : ∀ m ∈ l, pathGe n m = true) : ∃ rest, sortDesc l = n :: rest := by
  have hmem' : n ∈ sortDesc l := mem_sortDesc.mpr hmem
  cases hs : sortDesc l with
  | nil =>
    rw [hs] at hmem'
    cases hmem'
  | cons h t =>
    rw [hs] at hmem'
    have hsorted := pairwise_sortDesc l
    rw [hs] at hsorted
    rcases List.mem_cons.mp hmem' with he | ht
    · exact ⟨t, by rw [he]⟩
    · have h1 : pathGe h n = true := (List.pairwise_cons.mp hsorted).1 n ht
      have h2 : pathGe n h = true := by
        refine hmax h (mem_sortDesc.mp ?_)
        rw [hs]
        exact List.mem_cons_self h t
      exact ⟨t, by rw [pathGe_antisymm h2 h1]⟩

/-! ## Listing lemmas -/

/-- The listing ignores the `Option` wrapper placed by `mkdir`. -/
theorem listing_getD (fs : FS) :
    list_credential_files (some (fs.getD [])) = list_credential_files fs := by
  cases fs <;> rfl

/-- A freshly written `*.json` file appears in the listing. -/
theorem listing_writeFile_self {d : Dir} {name : String} {content : Json}
    (h : isJsonName name = true) :
    name ∈ list_credential_files (some (writeFile d name content)) := by
  rw [list_credential_files, mem_sortDesc, writeFile]
  exact List.mem_filter.mpr ⟨List.mem_map.mpr ⟨(name, content), List.mem_cons_self _ _, rfl⟩, h⟩

/-- Every listed name of the written store is the written name or a
previously listed name. -/
theorem listing_writeFile_subset {d : Dir} {name m : String} {content : Json}
    (h : m ∈ list_credential_files (some (writeFile d name content))) :
    m = name ∨ m ∈ list_credential_files (some d) := by
  rw [list_credential_files, mem_sortDesc, writeFile] at h
  rcases List.mem_filter.mp h with ⟨hmem, hjson⟩
  rcases List.mem_map.mp hmem with ⟨p, hp, hpm⟩
  rcases List.mem_cons.mp hp with he | hrest
  · left
    rw [← hpm, he]
  · right
    rw [list_credential_files, mem_sortDesc]
    refine List.mem_filter.mpr ⟨List.mem_map.mpr ⟨p, List.mem_of_mem_filter hrest, hpm⟩, hjson⟩

/-- A listed name distinct from the written one stays listed. -/
theorem listing_writeFile_keep {d : Dir} {name m : String} {content : Json}
    (h : m ∈ list_credential_files (some d)) (hne : m ≠ name) :
    m ∈ list_credential_files (some (writeFile d name content)) := by
  rw [list_credential_files, mem_sortDesc] at h
  rcases List.mem_filter.mp h with ⟨hmem, hjson⟩
  rcases List.mem_map.mp hmem with ⟨p, hp, hpm⟩
  rw [list_credential_files, mem_sortDesc, writeFile]
  refine List.mem_filter.mpr ⟨List.mem_map.mpr ⟨p, ?_, hpm⟩, hjson⟩
  refine List.mem_cons_of_mem _ (List.mem_filter.mpr ⟨hp, ?_⟩)
  simp [hpm, hne]

/-- A maximal listed name heads the listing. -/
theorem listing_head {fs : FS} {n : String} (hmem : n ∈ list_credential_files fs)
    (hmax : ∀ m ∈ list_credential_files fs, pathGe n m = true) :
    ∃ rest, list_credential_files fs = n :: rest := by
  cases fs with
  | none => cases hmem
  | some d =>
    rw [list_credential_files] at hmem ⊢
    have hmem' := mem_sortDesc.mp hmem
    refine sortDesc_head hmem' ?_
    intro m hm
    refine hmax m ?_
    rw [list_credential_files]
    exact mem_sortDesc.mpr hm

/-- The length of the padded rendering. -/
theorem padDigits_length (w : Nat) : ∀ n, (padDigits w n).length = w := by
  induction w with
  | zero => intro n; rfl
  | succ k ih => intro n; simp [padDigits, ih]

/-- The timestamp rendering is 19 characters long. -/
theorem tsChars_length (t : Timestamp) : (tsChars t).length = 19 := by
  simp [tsChars, padDigits_length]

/-- Generated snapshot names match the glob `*.json`. -/
theorem isJsonName_filenameOf (t : Timestamp) : isJsonName (filenameOf t) = true := by
  have hd : (filenameOf t).data = tsChars t ++ (".json").data := rfl
  have hlen : (filenameOf t).data.length = 24 := by
    rw [hd, List.length_append, tsChars_length]
    rfl
  rw [isJsonName, hlen, hd]
  have h24 : (24 : Nat) - 5 = (tsChars t).length := by rw [tsChars_length]
  rw [h24, List.drop_left]
  simp

/-- Saving and then loading the latest snapshot returns the saved records,
provided no already-present snapshot name sorts above the generated one
(as holds whenever existing snapshots stem from earlier save times). -/
theorem save_then_load_latest (creds : List Credential) (fs : FS) (now : Timestamp)
    (hmax : ∀ m ∈ list_credential_files fs, pathGe (filenameOf now) m = true) :
    load_credentials (save_credentials creds fs now).1 = Except.ok creds := by
  have hself : filenameOf now ∈
      list_credential_files (some (writeFile (fs.getD []) (filenameOf now) (serializeCreds creds))) :=
    listing_writeFile_self (isJsonName_filenameOf now)
  have hmax' : ∀ m ∈
      list_credential_files (some (writeFile (fs.getD []) (filenameOf now) (serializeCreds creds))),
      pathGe (filenameOf now) m = true := by
    intro m hm
    rcases listing_writeFile_subset hm with he | hmem
    · rw [he]; exact pathGe_refl _
    · rw [listing_getD] at hmem
      exact hmax m hmem
  obtain ⟨rest, hlist⟩ := listing_head hself hmax'
  show load_credentials (some (writeFile (fs.getD []) (filenameOf now) (serializeCreds creds))) =
    Except.ok creds
  rw [load_credentials, hlist]
  exact load_after_save_to creds (filenameOf now) fs

/-! ## Monotonicity of the timestamped naming scheme -/

/-- Equal heads are skipped by the comparison. -/
theorem charListLt_cons_same (c : Char) (r s : List Char) :
    charListLt (c :: r) (c :: s) = charListLt r s := by
  rw [charListLt, if_neg (lt_irrefl c), if_neg (lt_irrefl c)]

/-- Equal prefixes are skipped by the comparison. -/
theorem charListLt_append_left (p : List Char) (r s : List Char) :
    charListLt (p ++ r) (p ++ s) = charListLt r s := by
  induction p with
  | nil => rfl
  | cons c cs ih => rw [List.cons_append, List.cons_append, charListLt_cons_same, ih]

/-- A strict comparison of equal-length blocks decides the comparison of
any extensions. -/
theorem charListLt_append_of_lt (a : List Char) :
    ∀ b r s, a.length = b.length → charListLt a b = true →
      charListLt (a ++ r) (b ++ s) = true := by
  induction a with
  | nil =>
    intro b r s hlen hab
    cases b with
    | nil => simp [charListLt] at hab
    | cons y ys => simp at hlen
  | cons x xs ih =>
    intro b r s hlen hab
    cases b with
    | nil => simp at hlen
    | cons y ys =>
      rw [charListLt_cons_iff] at hab
      rw [List.cons_append, List.cons_append, charListLt_cons_iff]
      rcases hab with h | ⟨e, h⟩
      · exact Or.inl h
      · refine Or.inr ⟨e, ih ys r s ?_ h⟩
        simpa using hlen

/-- Digit characters are ordered as their digits. -/
theorem digitChar_lt {m n : Nat} (hmn : m < n) (hn : n < 10) : digitChar m < digitChar n := by
  interval_cases n <;> interval_cases m <;> decide

/-- The padded rendering is strictly monotone below its capacity. -/
theorem padDigits_lt (w : Nat) : ∀ m n, m < n → n < 10 ^ w →
    charListLt (padDigits w m) (padDigits w n) = true := by
  induction w with
  | zero =>
    intro m n hmn hn
    omega
  | succ k ih =>
    intro m n hmn hn
    have hdle : m / 10 ^ k ≤ n / 10 ^ k := Nat.div_le_div_right (le_of_lt hmn)
    have hn10 : n / 10 ^ k < 10 := by
      apply Nat.div_lt_of_lt_mul
      rw [← pow_succ]
      exact hn
    rw [padDigits, padDigits, charListLt_cons_iff]
    rcases lt_or_eq_of_le hdle with hlt | heq
    · exact Or.inl (digitChar_lt hlt hn10)
    · refine Or.inr ⟨by rw [heq], ?_⟩
      have e1 := Nat.div_add_mod m (10 ^ k)
      have e2 := Nat.div_add_mod n (10 ^ k)
      rw [← heq] at e2
      have hmod : m % 10 ^ k < n % 10 ^ k := by
        generalize 10 ^ k * (m / 10 ^ k) = A at e1 e2
        omega
      exact ih _ _ hmod (Nat.mod_lt n (pow_pos (by norm_num) k))

/-- One separator-terminated digit block compares strictly when its field
does. -/
theorem blockLt {w fa fb : Nat} (sep : Char) (h : fa < fb) (hb : fb < 10 ^ w)
    (r s : List Char) :
    charListLt ((padDigits w fa ++ [sep]) ++ r) ((padDigits w fb ++ [sep]) ++ s) = true := by
  refine charListLt_append_of_lt _ _ _ _ (by simp [padDigits_length]) ?_
  exact charListLt_append_of_lt _ _ _ _
    ((padDigits_length w fa).trans (padDigits_length w fb).symm) (padDigits_lt w _ _ h hb)

/-- An earlier valid timestamp renders to a strictly smaller string. -/
theorem tsChars_lt {a b : Timestamp} (_hva : a.valid) (hvb : b.valid) (hab : a.before b) :
    charListLt (tsChars a) (tsChars b) = true := by
  obtain ⟨hy2, hmo2, hd2, hh2, hmi2, hs2⟩ := hvb
  rw [tsChars, tsChars]
  rcases hab with h | ⟨ey, hab⟩
  · exact blockLt '-' h hy2 _ _
  · rw [ey, charListLt_append_left]
    rcases hab with h | ⟨emo, hab⟩
    · exact blockLt '-' h hmo2 _ _
    · rw [emo, charListLt_append_left]
      rcases hab with h | ⟨ed, hab⟩
      · exact blockLt '_' h hd2 _ _
      · rw [ed, charListLt_append_left]
        rcases hab with h | ⟨eh, hab⟩
        · exact blockLt '-' h hh2 _ _
        · rw [eh, charListLt_append_left]
          rcases hab with h | ⟨emi, hab⟩
          · exact blockLt '-' h hmi2 _ _
          · rw [emi, charListLt_append_left]
            exact padDigits_lt 2 _ _ hab hs2

/-- An earlier valid timestamp yields a strictly smaller file name. -/
theorem filenameOf_lt {a b : Timestamp} (hva : a.valid) (hvb : b.valid) (hab : a.before b) :
    charListLt (filenameOf a).data (filenameOf b).data = true :=
  charListLt_append_of_lt _ _ _ _
    ((tsChars_length a).trans (tsChars_length b).symm) (tsChars_lt hva hvb hab)

/-- Distinct-in-time valid timestamps yield distinct file names. -/
theorem filenameOf_ne {a b : Timestamp} (hva : a.valid) (hvb : b.valid) (hab : a.before b) :
    filenameOf a ≠ filenameOf b := by
  intro e
  exact ne_of_charListLt (filenameOf_lt hva hvb hab) (congrArg String.data e)

/-- The later file name dominates the earlier one in the descending
comparator. -/
theorem pathGe_filenameOf {a b : Timestamp} (hva : a.valid) (hvb : b.valid)
    (hab : a.before b) : pathGe (filenameOf b) (filenameOf a) = true := by
  simp [pathGe, charListLt_asymm (filenameOf_lt hva hvb hab)]

/-- Two saves at strictly increasing valid timestamps create two distinct
snapshot files, both present afterwards, and load-latest then returns the
second save's records. -/
theorem save_twice_spec (creds1 creds2 : List Credential) (fs : FS) (t1 t2 : Timestamp)
    (hv1 : t1.valid) (hv2 : t2.valid) (h12 : t1.before t2)
    (hmax : ∀ m ∈ list_credential_files fs, pathGe (filenameOf t1) m = true) :
    (save_credentials creds1 fs t1).2 ≠
        (save_credentials creds2 (save_credentials creds1 fs t1).1 t2).2 ∧
      (save_credentials creds1 fs t1).2 ∈
        list_credential_files (save_credentials creds2 (save_credentials creds1 fs t1).1 t2).1 ∧
      (save_credentials creds2 (save_credentials creds1 fs t1).1 t2).2 ∈
        list_credential_files (save_credentials creds2 (save_credentials creds1 fs t1).1 t2).1 ∧
      load_credentials (save_credentials creds2 (save_credentials creds1 fs t1).1 t2).1 =
        Except.ok creds2 := by
  have hne := filenameOf_ne hv1 hv2 h12
  have hge21 := pathGe_filenameOf hv1 hv2 h12
  have hmax1 : ∀ m ∈ list_credential_files (save_credentials creds1 fs t1).1,
      pathGe (filenameOf t2) m = true := by
    intro m hm
    have hm2 : m ∈ list_credential_files
        (some (writeFile (fs.getD []) (filenameOf t1) (serializeCreds creds1))) := hm
    rcases listing_writeFile_subset hm2 with he | hmem
    · rw [he]
      exact hge21
    · rw [listing_getD] at hmem
      exact pathGe_trans hge21 (hmax m hmem)
  refine ⟨hne, ?_, ?_, save_then_load_latest creds2 _ t2 hmax1⟩
  · exact listing_writeFile_keep (listing_writeFile_self (isJsonName_filenameOf t1)) hne
  · exact listing_writeFile_self (isJsonName_filenameOf t2)

/-! ## Domain-extraction lemmas -/

/-- Dropping all but the last `n` elements is taking the last `n`. -/
theorem drop_eq_lastLabels (n : Nat) (l : List (List Char)) :
    l.drop (l.length - n) = lastLabels n l := by
  rw [lastLabels, List.take_reverse, List.reverse_reverse]

/-- Python negative indexing of the second-to-last element agrees with
indexing the reversed list. -/
theorem secondToLast_eq (l : List (List Char)) (h : 2 ≤ l.length) :
    l.reverse.get? 1 = l.get? (l.length - 2) := by
  rw [List.get?_eq_getElem?, List.get?_eq_getElem?, List.getElem?_reverse (by omega),
    show l.length - 1 - 1 = l.length - 2 from by omega]

/-- Splitting a separator-free string yields the single whole group. -/
theorem splitOnChar_no_sep (sep : Char) (l : List Char) (h : ∀ c ∈ l, c ≠ sep) :
    splitOnChar sep l = [l] := by
  induction l with
  | nil => rfl
  | cons c rest ih =>
    have hc : c ≠ sep := h c (List.mem_cons_self c rest)
    have hrest := ih (fun x hx => h x (List.mem_cons_of_mem c hx))
    rw [splitOnChar]
    simp only [hrest, if_neg hc]

/-! ## Selection-prompt lemmas -/

/-- An accepted choice lies in range. -/
theorem parse_choice_bounds {n : Nat} {raw : String} {i : Nat}
    (h : parse_choice n raw = some i) : 1 ≤ i ∧ i ≤ n := by
  rw [parse_choice] at h
  split at h
  · rename_i hcond
    cases h
    exact ⟨hcond.2.1, hcond.2.2⟩
  · cases h

/-- A selected file is one of the listed files. -/
theorem select_loop_mem {inputs files : List String} {s : String}
    (h : select_loop inputs files = some s) : s ∈ files := by
  induction inputs with
  | nil => cases h
  | cons raw rest ih =>
    rw [select_loop] at h
    cases hp : parse_choice files.length raw with
    | none =>
      rw [hp] at h
      exact ih h
    | some i =>
      rw [hp] at h
      exact List.get?_mem h

/-- Rejected inputs are skipped and the first accepted input selects the
corresponding 1-indexed file. -/
theorem select_loop_spec (files : List String) (pre post : List String) (raw : String)
    (i : Nat) (hpre : ∀ r ∈ pre, parse_choice files.length r = none)
    (hraw : parse_choice files.length raw = some i) :
    select_loop (pre ++ raw :: post) files = files.get? (i - 1) := by
  induction pre with
  | nil =>
    rw [List.nil_append, select_loop, hraw]
  | cons r0 rest ih =>
    rw [List.cons_append, select_loop, hpre r0 (List.mem_cons_self r0 rest)]
    exact ih (fun r hr => hpre r (List.mem_cons_of_mem r0 hr))

/-! ## Flow-level persistence lemmas -/

/-- Equation: the login flow with an empty listing returns immediately. -/
theorem login_main_eq_nil {env : LoginEnv} {fs : FS}
    (h : list_credential_files fs = []) :
    login_main env fs = (fs, LoginResult.noCredentials) := by
  unfold login_main
  rw [h]

/-- Equation: the login flow with a non-empty listing runs the selection
step and hands over. -/
theorem login_main_eq_cons {env : LoginEnv} {fs : FS} {f0 : String} {rest : List String}
    (h : list_credential_files fs = f0 :: rest) :
    login_main env fs =
      match if rest.isEmpty then some f0 else select_loop env.inputs (f0 :: rest) with
      | none => (fs, LoginResult.awaitingInput)
      | some selected => login_after_select env fs selected := by
  unfold login_main
  rw [h]

/-- The post-selection login tail leaves the store unchanged except on a
success with a non-empty updated record list, in which case it rewrites
the selected snapshot in place. -/
theorem login_after_select_cases (env : LoginEnv) (fs : FS) (selected : String) :
    (login_after_select env fs selected).1 = fs ∨
      ((login_after_select env fs selected).2 = LoginResult.success ∧ env.updated ≠ [] ∧
        login_after_select env fs selected =
          (save_credentials_to env.updated selected fs, LoginResult.success)) := by
  unfold login_after_select
  cases hu : env.urlOk with
  | false => exact Or.inl rfl
  | true =>
    cases h3 : load_credentials_from fs selected with
    | error e => exact Or.inl rfl
    | ok creds =>
      cases hb : env.buttonFound with
      | false => exact Or.inl rfl
      | true =>
        cases hl : env.loginDetected with
        | false => exact Or.inl rfl
        | true =>
          cases hup : env.updated.isEmpty with
          | true => exact Or.inl rfl
          | false =>
            refine Or.inr ⟨rfl, ?_, rfl⟩
            intro hnil
            rw [hnil] at hup
            cases hup

/-- The login flow leaves the store unchanged except on a success with a
non-empty updated record list, in which case it rewrites one listed
snapshot in place. -/
theorem login_main_cases (env : LoginEnv) (fs : FS) :
    (login_main env fs).1 = fs ∨
      ((login_main env fs).2 = LoginResult.success ∧ env.updated ≠ [] ∧
        ∃ sel ∈ list_credential_files fs,
          (login_main env fs).1 = save_credentials_to env.updated sel fs) := by
  cases h1 : list_credential_files fs with
  | nil =>
    rw [login_main_eq_nil h1]
    exact Or.inl rfl
  | cons f0 rest =>
    rw [login_main_eq_cons h1]
    have hmem : ∀ selected,
        (if rest.isEmpty then some f0 else select_loop env.inputs (f0 :: rest)) =
          some selected → selected ∈ f0 :: rest := by
      intro selected hsel
      cases hre : rest.isEmpty with
      | true =>
        rw [hre, if_pos rfl] at hsel
        cases hsel
        exact List.mem_cons_self _ _
      | false =>
        rw [hre] at hsel
        simp only [Bool.false_eq_true, if_false] at hsel
        exact select_loop_mem hsel
    cases h2 : (if rest.isEmpty then some f0 else select_loop env.inputs (f0 :: rest)) with
    | none => exact Or.inl rfl
    | some selected =>
      rcases login_after_select_cases env fs selected with hun | ⟨hsucc, hne, heq⟩
      · exact Or.inl hun
      · refine Or.inr ⟨hsucc, hne, selected, ?_, ?_⟩
        · exact hmem selected h2
        · show (login_after_select env fs selected).1 = save_credentials_to env.updated selected fs
          rw [heq]

/-- The register flow leaves the store unchanged except on success, in
which case it performs the timestamped save of a non-empty record list. -/
theorem register_main_cases (env : RegisterEnv) (fs : FS) (now : Timestamp) :
    ((register_main env fs now).1 = fs ∧
        (register_main env fs now).2 ≠ RegisterResult.success) ∨
      ((register_main env fs now).2 = RegisterResult.success ∧ env.creds ≠ [] ∧
        (register_main env fs now).1 = (save_credentials env.creds fs now).1) := by
  unfold register_main
  cases hu : env.urlOk with
  | false => exact Or.inl ⟨rfl, fun h => RegisterResult.noConfusion h⟩
  | true =>
    cases h2 : env.loginDetected with
    | false => exact Or.inl ⟨rfl, fun h => RegisterResult.noConfusion h⟩
    | true =>
      cases h3 : env.navOk with
      | false => exact Or.inl ⟨rfl, fun h => RegisterResult.noConfusion h⟩
      | true =>
        cases h4 : env.otpSendOk with
        | false => exact Or.inl ⟨rfl, fun h => RegisterResult.noConfusion h⟩
        | true =>
          cases h5 : env.otpDone with
          | false => exact Or.inl ⟨rfl, fun h => RegisterResult.noConfusion h⟩
          | true =>
            cases h6 : env.ceremonyDone with
            | false => exact Or.inl ⟨rfl, fun h => RegisterResult.noConfusion h⟩
            | true =>
              cases h7 : env.creds.isEmpty with
              | true => exact Or.inl ⟨rfl, fun h => RegisterResult.noConfusion h⟩
              | false =>
                refine Or.inr ⟨rfl, ?_, rfl⟩
                intro hnil
                rw [hnil] at h7
                cases h7

/-- With every UI step succeeding but no credential produced, the register
flow reports `OperationFailed` and writes nothing. -/
theorem register_main_no_creds (env : RegisterEnv) (fs : FS) (now : Timestamp)
    (hu : env.urlOk = true) (h2 : env.loginDetected = true) (h3 : env.navOk = true)
    (h4 : env.otpSendOk = true) (h5 : env.otpDone = true) (h6 : env.ceremonyDone = true)
    (h7 : env.creds = []) :
    register_main env fs now = (fs, RegisterResult.operationFailed) := by
  unfold register_main
  rw [hu, h2, h3, h4, h5, h6, h7]
  rfl

/-! ## Store-emptiness and extraction support -/

/-- A store that is absent or holds no `*.json` file lists nothing. -/
theorem listing_empty_of_no_json (fs : FS)
    (h : fs = none ∨ ∀ p ∈ fs.getD [], isJsonName p.1 = false) :
    list_credential_files fs = [] := by
  cases fs with
  | none => rfl
  | some d =>
    rcases h with he | hall
    · cases he
    · rw [list_credential_files]
      have hf : (d.map Prod.fst).filter isJsonName = [] := by
        rw [List.filter_eq_nil_iff]
        intro a ha
        rcases List.mem_map.mp ha with ⟨p, hp, hpa⟩
        rw [← hpa]
        simp [hall p hp]
      rw [hf]
      rfl

/-- Unfolding equation of the extractor on a present hostname. -/
theorem extract_domain_some (h : String) :
    extract_domain (some h) =
      if 3 ≤ (splitOnChar '.' h.data).length ∧
          (splitOnChar '.' h.data).getD ((splitOnChar '.' h.data).length - 2) [] ∈ dotMarkers then
        Except.ok (String.mk (joinDot
          ((splitOnChar '.' h.data).drop ((splitOnChar '.' h.data).length - 3))))
      else
        Except.ok (String.mk (joinDot
          ((splitOnChar '.' h.data).drop ((splitOnChar '.' h.data).length - 2)))) := rfl

/-- A valid index read through `getD` is the corresponding `get?` value. -/
theorem getD_eq_some_get? (l : List (List Char)) (n : Nat) (hn : n < l.length) :
    l.get? n = some (l.getD n []) := by
  rw [List.get?_eq_getElem?, List.getD_eq_getElem?_getD]
  cases hx : l[n]? with
  | none =>
    rw [List.getElem?_eq_none_iff] at hx
    omega
  | some v => rfl

/-! ## Claim theorems -/

/-- C1: for every record list and every path, save-to-path followed by
load-from-path on that path returns exactly the records written, whatever
other files the store holds. -/
theorem c1_save_to_then_load_from (creds : List Credential) (path : String) (fs : FS) :
    load_credentials_from (save_credentials_to creds path fs) path = Except.ok creds :=
  load_after_save_to creds path fs

/-- C2: `extract_domain` fails with `InvalidInput` when no hostname is
present; with a hostname of at least three labels whose second-to-last
label is a multi-part-TLD marker it returns the last three labels joined
by dots; otherwise, with at least two labels, the last two labels joined
by dots. -/
theorem c2_extract_domain_spec (h : String) :
    extract_domain none = Except.error DomainError.invalidInput ∧
      (∀ m, 3 ≤ (splitOnChar '.' h.data).length →
        (splitOnChar '.' h.data).reverse.get? 1 = some m → m ∈ dotMarkers →
        extract_domain (some h) =
          Except.ok (String.mk (joinDot (lastLabels 3 (splitOnChar '.' h.data))))) ∧
      (2 ≤ (splitOnChar '.' h.data).length →
        ¬(3 ≤ (splitOnChar '.' h.data).length ∧
          ∃ m ∈ dotMarkers, (splitOnChar '.' h.data).reverse.get? 1 = some m) →
        extract_domain (some h) =
          Except.ok (String.mk (joinDot (lastLabels 2 (splitOnChar '.' h.data))))) := by
  refine ⟨rfl, ?_, ?_⟩
  · intro m h3 hrev hm
    have h2le : 2 ≤ (splitOnChar '.' h.data).length := by omega
    have hgd : (splitOnChar '.' h.data).getD ((splitOnChar '.' h.data).length - 2) [] = m := by
      have hs := getD_eq_some_get? (splitOnChar '.' h.data)
        ((splitOnChar '.' h.data).length - 2) (by omega)
      rw [← secondToLast_eq _ h2le, hrev] at hs
      exact (Option.some.injEq _ _ ▸ hs).symm
    rw [extract_domain_some, if_pos ⟨h3, hgd ▸ hm⟩, drop_eq_lastLabels]
  · intro h2le hn
    have hcond : ¬(3 ≤ (splitOnChar '.' h.data).length ∧
        (splitOnChar '.' h.data).getD ((splitOnChar '.' h.data).length - 2) [] ∈ dotMarkers) := by
      rintro ⟨h3, hmem⟩
      refine hn ⟨h3, (splitOnChar '.' h.data).getD ((splitOnChar '.' h.data).length - 2) [],
        hmem, ?_⟩
      rw [secondToLast_eq _ h2le]
      exact getD_eq_some_get? _ _ (by omega)
    rw [extract_domain_some, if_neg hcond, drop_eq_lastLabels]

/-- C2 witness: a marker hostname, a plain hostname and the no-hostname
failure, evaluated concretely. -/
theorem c2_extract_domain_witness :
    extract_domain none = Except.error DomainError.invalidInput ∧
      extract_domain (some "www.example.co.jp") = Except.ok "example.co.jp" ∧
      extract_domain (some "www.example.com") = Except.ok "example.com" := by
  refine ⟨(c2_extract_domain_spec "x").1, ?_, ?_⟩
  · have h2 := (c2_extract_domain_spec "www.example.co.jp").2.1 ("co").data
      (by decide) (by decide) (by decide)
    rw [h2]
    decide
  · have h3 := (c2_extract_domain_spec "www.example.com").2.2 (by decide) (by decide)
    rw [h3]
    decide

/-- C3: provided the authenticator never lowers the reported counter, the
snapshot rewritten by a login read back afterwards carries a signature
counter at least the pre-login value, and a second consecutive login whose
engine strictly increased the counter reads back strictly larger. -/
theorem c3_signcount_monotonic (fs : FS) (file : String)
    (creds0 u1 u2 : List Credential)
    (_h0 : load_credentials_from fs file = Except.ok creds0)
    (h1 : u1 ≠ []) (h2 : u2 ≠ [])
    (hge : firstSignCount creds0 ≤ firstSignCount u1)
    (hgt : firstSignCount u1 < firstSignCount u2) :
    ∃ c1 c2,
      (do_passkey_login fs file u1).2 = Except.ok c1 ∧
        (do_passkey_login (do_passkey_login fs file u1).1 file u2).2 = Except.ok c2 ∧
        firstSignCount creds0 ≤ firstSignCount c1 ∧
        firstSignCount c1 < firstSignCount c2 := by
  have e1 : u1.isEmpty = false := by
    cases u1 with
    | nil => exact absurd rfl h1
    | cons a l => rfl
  have e2 : u2.isEmpty = false := by
    cases u2 with
    | nil => exact absurd rfl h2
    | cons a l => rfl
  have hd1 : do_passkey_login fs file u1 =
      (save_credentials_to u1 file fs,
        load_credentials_from (save_credentials_to u1 file fs) file) := by
    unfold do_passkey_login
    rw [e1]
    rfl
  have hd2 : do_passkey_login (save_credentials_to u1 file fs) file u2 =
      (save_credentials_to u2 file (save_credentials_to u1 file fs),
        load_credentials_from (save_credentials_to u2 file (save_credentials_to u1 file fs))
          file) := by
    unfold do_passkey_login
    rw [e2]
    rfl
  refine ⟨u1, u2, ?_, ?_, hge, hgt⟩
  · rw [hd1]
    exact load_after_save_to u1 file fs
  · rw [hd1, hd2]
    exact load_after_save_to u2 file (save_credentials_to u1 file fs)

/-- C3 witness: two concrete logins advancing the counter 0 to 1 to 2 on a
one-record snapshot. -/
theorem c3_signcount_monotonic_witness :
    ∃ c1 c2,
      (do_passkey_login (save_credentials_to [sampleCred 0] "cred.json" none) "cred.json"
          [sampleCred 1]).2 = Except.ok c1 ∧
        (do_passkey_login
            (do_passkey_login (save_credentials_to [sampleCred 0] "cred.json" none) "cred.json"
              [sampleCred 1]).1 "cred.json" [sampleCred 2]).2 = Except.ok c2 ∧
        firstSignCount [sampleCred 0] ≤ firstSignCount c1 ∧
        firstSignCount c1 < firstSignCount c2 :=
  c3_signcount_monotonic _ _ [sampleCred 0] [sampleCred 1] [sampleCred 2]
    (by decide) (by decide) (by decide) (by decide) (by decide)

/-- C4: a timestamped save followed by load-latest on the same store
returns exactly the records saved, provided every already-listed snapshot
name precedes-or-equals the generated one, as the monotone clock
guarantees. -/
theorem c4_save_then_load_latest (creds : List Credential) (fs : FS) (now : Timestamp)
    (_hne : creds ≠ [])
    (hmax : ∀ m ∈ list_credential_files fs, pathGe (filenameOf now) m = true) :
    load_credentials (save_credentials creds fs now).1 = Except.ok creds :=
  save_then_load_latest creds fs now hmax

/-- C4 witness: a concrete non-empty save into an absent directory. -/
theorem c4_save_then_load_latest_witness :
    load_credentials (save_credentials [sampleCred 3] none ts0).1 =
      Except.ok [sampleCred 3] :=
  c4_save_then_load_latest [sampleCred 3] none ts0 (by decide)
    (fun m hm => absurd hm (List.not_mem_nil m))

/-- C5 counterexample: two successive saves within the same second (the
naming scheme's one-second resolution) generate the same file name, so the
store afterwards holds a single snapshot file, not two distinct ones. -/
theorem c5_same_second_counterexample :
    (save_credentials [sampleCred 0] none ts0).2 =
        (save_credentials [sampleCred 1] (save_credentials [sampleCred 0] none ts0).1 ts0).2 ∧
      (list_credential_files
          (save_credentials [sampleCred 1] (save_credentials [sampleCred 0] none ts0).1
            ts0).1).length = 1 := by
  decide

/-- C5 (amended): two successive saves at strictly increasing valid
timestamps yield two distinct snapshot files, both present afterwards, and
load-latest then returns the records of the most recent save. -/
theorem c5_two_saves_increasing (creds1 creds2 : List Credential) (fs : FS)
    (t1 t2 : Timestamp) (hv1 : t1.valid) (hv2 : t2.valid) (h12 : t1.before t2)
    (hmax : ∀ m ∈ list_credential_files fs, pathGe (filenameOf t1) m = true) :
    (save_credentials creds1 fs t1).2 ≠
        (save_credentials creds2 (save_credentials creds1 fs t1).1 t2).2 ∧
      (save_credentials creds1 fs t1).2 ∈
        list_credential_files (save_credentials creds2 (save_credentials creds1 fs t1).1 t2).1 ∧
      (save_credentials creds2 (save_credentials creds1 fs t1).1 t2).2 ∈
        list_credential_files (save_credentials creds2 (save_credentials creds1 fs t1).1 t2).1 ∧
      load_credentials (save_credentials creds2 (save_credentials creds1 fs t1).1 t2).1 =
        Except.ok creds2 :=
  save_twice_spec creds1 creds2 fs t1 t2 hv1 hv2 h12 hmax

/-- C5 witness: two concrete saves one second apart into an absent
directory. -/
theorem c5_two_saves_increasing_witness :
    (save_credentials [sampleCred 0] none ts0).2 ≠
        (save_credentials [sampleCred 1] (save_credentials [sampleCred 0] none ts0).1 ts1).2 ∧
      (save_credentials [sampleCred 0] none ts0).2 ∈
        list_credential_files
          (save_credentials [sampleCred 1] (save_credentials [sampleCred 0] none ts0).1 ts1).1 ∧
      (save_credentials [sampleCred 1] (save_credentials [sampleCred 0] none ts0).1 ts1).2 ∈
        list_credential_files
          (save_credentials [sampleCred 1] (save_credentials [sampleCred 0] none ts0).1 ts1).1 ∧
      load_credentials
          (save_credentials [sampleCred 1] (save_credentials [sampleCred 0] none ts0).1 ts1).1 =
        Except.ok [sampleCred 1] :=
  c5_two_saves_increasing [sampleCred 0] [sampleCred 1] none ts0 ts1
    (by decide) (by decide) (by decide) (fun m hm => absurd hm (List.not_mem_nil m))

/-- C6: an absent store or one without snapshot files lists nothing, fails
load-latest with `NotFound` and reports non-existence; and existence holds
exactly when the listing is non-empty. -/
theorem c6_empty_store_behaviour (fs : FS) :
    ((fs = none ∨ ∀ p ∈ fs.getD [], isJsonName p.1 = false) →
        list_credential_files fs = [] ∧
          load_credentials fs = Except.error StoreError.notFound ∧
          credential_exists fs = false) ∧
      (credential_exists fs = true ↔ list_credential_files fs ≠ []) := by
  constructor
  · intro h
    have hl := listing_empty_of_no_json fs h
    refine ⟨hl, ?_, ?_⟩
    · unfold load_credentials
      rw [hl]
    · rw [credential_exists, hl]
      rfl
  · rw [credential_exists]
    simp [List.length_pos]

/-- C6 witness: the absent store, and a store holding one snapshot. -/
theorem c6_empty_store_behaviour_witness :
    (list_credential_files none = [] ∧
        load_credentials none = Except.error StoreError.notFound ∧
        credential_exists none = false) ∧
      (credential_exists (save_credentials [sampleCred 0] none ts0).1 = true ↔
        list_credential_files (save_credentials [sampleCred 0] none ts0).1 ≠ []) :=
  ⟨(c6_empty_store_behaviour none).1 (Or.inl rfl),
    (c6_empty_store_behaviour (save_credentials [sampleCred 0] none ts0).1).2⟩

/-- C7: the login flow rewrites the store only on a detected success with
a non-empty updated record list, and then only by overwriting one listed
snapshot in place; any flow that does not reach success leaves the store
unchanged. -/
theorem c7_login_overwrite_discipline (env : LoginEnv) (fs : FS) :
    ((login_main env fs).2 ≠ LoginResult.success → (login_main env fs).1 = fs) ∧
      ((login_main env fs).1 ≠ fs →
        (login_main env fs).2 = LoginResult.success ∧ env.updated ≠ [] ∧
          ∃ sel ∈ list_credential_files fs,
            (login_main env fs).1 = save_credentials_to env.updated sel fs) := by
  rcases login_main_cases env fs with h | ⟨hs, hne, hex⟩
  · exact ⟨fun _ => h, fun hn => absurd h hn⟩
  · exact ⟨fun hn => absurd hs hn, fun _ => ⟨hs, hne, hex⟩⟩

/-- C7 witness: an aborted login leaves a one-snapshot store unchanged,
and a successful login with updated records modifies it. -/
theorem c7_login_overwrite_discipline_witness :
    (login_main ⟨[], true, true, false, [sampleCred 9]⟩
        (save_credentials_to [sampleCred 0] "cred.json" none)).1 =
      save_credentials_to [sampleCred 0] "cred.json" none ∧
    ((login_main ⟨[], true, true, true, [sampleCred 9]⟩
        (save_credentials_to [sampleCred 0] "cred.json" none)).2 = LoginResult.success ∧
      [sampleCred 9] ≠ ([] : List Credential) ∧
      ∃ sel ∈ list_credential_files (save_credentials_to [sampleCred 0] "cred.json" none),
        (login_main ⟨[], true, true, true, [sampleCred 9]⟩
            (save_credentials_to [sampleCred 0] "cred.json" none)).1 =
          save_credentials_to [sampleCred 9] sel
            (save_credentials_to [sampleCred 0] "cred.json" none)) := by
  constructor
  · exact (c7_login_overwrite_discipline ⟨[], true, true, false, [sampleCred 9]⟩
      (save_credentials_to [sampleCred 0] "cred.json" none)).1 (by decide)
  · exact (c7_login_overwrite_discipline ⟨[], true, true, true, [sampleCred 9]⟩
      (save_credentials_to [sampleCred 0] "cred.json" none)).2
      (fun e =>
        absurd (congrArg (fun x => load_credentials_from x "cred.json") e) (by decide))

/-- C8: with every UI step succeeding but no credential produced, the
register flow fails with `OperationFailed` and writes nothing; any
non-success run leaves the store unchanged; and the store changes only on
a success with at least one record. -/
theorem c8_register_persistence (env : RegisterEnv) (fs : FS) (now : Timestamp) :
    ((env.urlOk = true ∧ env.loginDetected = true ∧ env.navOk = true ∧
        env.otpSendOk = true ∧ env.otpDone = true ∧ env.ceremonyDone = true ∧
        env.creds = []) →
      register_main env fs now = (fs, RegisterResult.operationFailed)) ∧
      ((register_main env fs now).2 ≠ RegisterResult.success →
        (register_main env fs now).1 = fs) ∧
      ((register_main env fs now).1 ≠ fs →
        (register_main env fs now).2 = RegisterResult.success ∧ env.creds ≠ []) := by
  refine ⟨?_, ?_, ?_⟩
  · rintro ⟨a, b, c, d, e, f, g⟩
    exact register_main_no_creds env fs now a b c d e f g
  · intro hr
    rcases register_main_cases env fs now with ⟨h1, _⟩ | ⟨hs, _, _⟩
    · exact h1
    · exact absurd hs hr
  · intro hn
    rcases register_main_cases env fs now with ⟨h1, _⟩ | ⟨hs, hne, _⟩
    · exact absurd h1 hn
    · exact ⟨hs, hne⟩

/-- C8 witness: an empty-credential ceremony fails without writing, an
aborted run leaves the store unchanged, and a successful run writes. -/
theorem c8_register_persistence_witness :
    register_main ⟨true, true, true, true, true, true, []⟩ none ts0 =
        (none, RegisterResult.operationFailed) ∧
      (register_main ⟨true, false, true, true, true, true, [sampleCred 1]⟩ none ts0).1 = none ∧
      ((register_main ⟨true, true, true, true, true, true, [sampleCred 1]⟩ none ts0).2 =
          RegisterResult.success ∧ [sampleCred 1] ≠ ([] : List Credential)) := by
  refine ⟨?_, ?_, ?_⟩
  · exact (c8_register_persistence ⟨true, true, true, true, true, true, []⟩ none ts0).1
      (by decide)
  · exact (c8_register_persistence ⟨true, false, true, true, true, true, [sampleCred 1]⟩
      none ts0).2.1 (by decide)
  · exact (c8_register_persistence ⟨true, true, true, true, true, true, [sampleCred 1]⟩
      none ts0).2.2 (fun e => Option.noConfusion e)

/-- C9: in the selection prompt over the newest-first listing, every
rejected (non-numeric or out-of-range) input is skipped and the prompt
repeats, and the first accepted input `i` selects the i-th (1-indexed)
listed file; accepted inputs are always in range. -/
theorem c9_selection_prompt (fs : FS) (pre post : List String) (raw : String) (i : Nat)
    (_hN : 1 < (list_credential_files fs).length)
    (hpre : ∀ r ∈ pre, parse_choice (list_credential_files fs).length r = none)
    (hraw : parse_choice (list_credential_files fs).length raw = some i) :
    select_loop (pre ++ raw :: post) (list_credential_files fs) =
        (list_credential_files fs).get? (i - 1) ∧
      1 ≤ i ∧ i ≤ (list_credential_files fs).length :=
  ⟨select_loop_spec (list_credential_files fs) pre post raw i hpre hraw,
    (parse_choice_bounds hraw).1, (parse_choice_bounds hraw).2⟩

/-- C9 witness: with two listed snapshots, three rejected inputs followed
by the accepted input `2` select the second (older) file. -/
theorem c9_selection_prompt_witness :
    select_loop (["abc", "0", "9"] ++ " 2 " :: [])
        (list_credential_files
          (save_credentials_to [sampleCred 0] "2025-01-01_00-00-00.json"
            (save_credentials_to [sampleCred 1] "2025-01-02_00-00-00.json" none))) =
      (list_credential_files
          (save_credentials_to [sampleCred 0] "2025-01-01_00-00-00.json"
            (save_credentials_to [sampleCred 1] "2025-01-02_00-00-00.json" none))).get? (2 - 1) ∧
    1 ≤ 2 ∧ 2 ≤ (list_credential_files
          (save_credentials_to [sampleCred 0] "2025-01-01_00-00-00.json"
            (save_credentials_to [sampleCred 1] "2025-01-02_00-00-00.json" none))).length :=
  c9_selection_prompt
    (save_credentials_to [sampleCred 0] "2025-01-01_00-00-00.json"
      (save_credentials_to [sampleCred 1] "2025-01-02_00-00-00.json" none))
    ["abc", "0", "9"] [] " 2 " 2 (by decide) (by decide) (by decide)

/-- C10: a URL whose hostname is a single dot-free label is returned
unchanged by `extract_domain` rather than rejected, because joining the
last two elements of a one-element label list yields the label itself. -/
theorem c10_single_label_hostname (h : String) (hnd : ∀ c ∈ h.data, c ≠ '.') :
    extract_domain (some h) = Except.ok h := by
  have hs := splitOnChar_no_sep '.' h.data hnd
  rw [extract_domain_some, hs]
  rw [if_neg (fun hcon => absurd hcon.1 (by simp))]
  rfl

/-- C10 witness: the hostname `localhost`. -/
theorem c10_single_label_hostname_witness :
    extract_domain (some "localhost") = Except.ok "localhost" :=
  c10_single_label_hostname "localhost" (by decide)
